import Mathlib

/-!
Verification of the FAISS-backed face vector index
(`server/services/faceAuth/vectorIndex.py`).

The Python module is shallowly embedded here:

* an embedding (`np.ndarray` of floats) is a `List ℝ` (`Vec`);
* the FAISS `IndexFlatL2` is the list of stored vectors, internal position
  `i` being the vector at index `i`; `index.add` is append, `index.search`
  is exact k-nearest-neighbour under squared Euclidean distance,
  `index.reconstruct` is positional lookup, `index.ntotal` is the length;
* Python dicts (`id_map`, `reverse_map`) are insertion-ordered association
  lists with Python dict update semantics (`dictInsert`, `dictGet`,
  `dictContains`); iteration over `.items()` is iteration over the list;
* Redis is a record of the two optional stored blobs; a `None` connection
  models a failed `redis.ConnectionError` at construction; the serialized
  mapping blob keeps the fields `load_from_redis` actually reads back
  (`id_map`, `reverse_map`); `dimension`, `total` and `updated_at` are also
  written by `save_to_redis` but never read, and the wall-clock timestamp
  is not modelled; Redis write errors are not modelled, so a save succeeds
  whenever a connection exists;
* each Python `try`/`except` block is an `Except`-valued body (`add_body`,
  `search_body`) plus a total wrapper that maps any raised error to the
  block's `except` return value.
-/

namespace VectorIndex

/-- A face embedding: ordered sequence of floating-point components. -/
abbrev Vec := List ℝ

/-- Mirrors the `SearchResult` dataclass (vectorIndex.py lines 23-29). -/
structure SearchResult where
  face_profile_id : ℤ
  similarity : ℝ
  distance : ℝ
  confidence_level : String

/-- Python dict membership `k in d` for an insertion-ordered assoc list. -/
def dictContains {α β : Type} [BEq α] (k : α) (d : List (α × β)) : Bool :=
  d.any (fun p => p.1 == k)

/-- Python dict lookup `d[k]` (first binding of the key). -/
def dictGet {α β : Type} [BEq α] (k : α) (d : List (α × β)) : Option β :=
  (d.find? (fun p => p.1 == k)).map Prod.snd

/-- Python dict assignment `d[k] = v`: updates the existing binding in
place, or appends a new binding at the end (insertion order). -/
def dictInsert {α β : Type} [BEq α] (k : α) (v : β) (d : List (α × β)) :
    List (α × β) :=
  if dictContains k d then d.map (fun p => if p.1 == k then (k, v) else p)
  else d ++ [(k, v)]

/-- Euclidean norm `np.linalg.norm(embedding)`. -/
noncomputable def l2norm (v : Vec) : ℝ :=
  Real.sqrt ((v.map (fun x => x * x)).sum)

/-- Normalization step of `add_vector`/`search_similar` (lines 124-126,
175-177): divide by the norm when it is positive, else pass through. -/
noncomputable def normalize (v : Vec) : Vec :=
  if l2norm v > 0 then v.map (fun x => x / l2norm v) else v

/-- Squared Euclidean distance, the raw distance FAISS `IndexFlatL2`
reports for a stored vector against the query. -/
noncomputable def sqDist (q v : Vec) : ℝ :=
  (List.zipWith (fun a b => (a - b) * (a - b)) q v).sum

/-- Class constant `HIGH_CONFIDENCE_THRESHOLD` (line 42). -/
noncomputable def HIGH_CONFIDENCE_THRESHOLD : ℝ := 0.85

/-- Class constant `MEDIUM_CONFIDENCE_THRESHOLD` (line 43). -/
noncomputable def MEDIUM_CONFIDENCE_THRESHOLD : ℝ := 0.70

/-- Distance-to-similarity conversion of `search_similar` (line 196):
`similarity = max(0.0, 1.0 - dist / 4.0)`. -/
noncomputable def similarityOf (dist : ℝ) : ℝ := max 0 (1 - dist / 4)

/-- Confidence tier assignment of `search_similar` (lines 199-204). -/
noncomputable def confidenceOf (s : ℝ) : String :=
  if s ≥ HIGH_CONFIDENCE_THRESHOLD then "high"
  else if s ≥ MEDIUM_CONFIDENCE_THRESHOLD then "medium"
  else "low"

/-- Contents of the Redis store under the two keys `index_key` and
`map_key`: the serialized FAISS index and the pickled mapping blob. -/
structure RedisStore where
  index_val : Option (List Vec)
  map_val : Option (List (ℕ × ℤ) × List (ℤ × ℕ))

/-- In-memory state of a `FaceVectorIndex` instance plus its Redis store.
`redis = none` models a failed connection (memory-only mode).
`save_count` counts completed `save_to_redis` snapshots. -/
structure FaceVectorIndex where
  dimension : ℕ
  vectors : List Vec
  id_map : List (ℕ × ℤ)
  reverse_map : List (ℤ × ℕ)
  redis : Option RedisStore
  save_count : ℕ

/-- Typed error for the `raise ValueError` on dimension mismatch. -/
inductive VIError where
  | invalidInput : String → VIError
deriving DecidableEq

/-- The message raised at lines 121 and 173 (parameterised in Python by
the two dimensions; the text is irrelevant to control flow). -/
def dimMismatchMsg : String := "Embedding dimension mismatch"

/-- Method `save_to_redis` (lines 305-341): writes the serialized index
and mapping blob under the two keys in one pipeline. -/
def save_to_redis (st : FaceVectorIndex) : Bool × FaceVectorIndex :=
  match st.redis with
  | none => (false, st)
  | some _ =>
    (true, { st with
      redis := some ⟨some st.vectors, some (st.id_map, st.reverse_map)⟩,
      save_count := st.save_count + 1 })

/-- Method `load_from_redis` (lines 343-381). Note the source assigns
`self.index = faiss.deserialize_index(index_bytes)` at line 361 before
checking whether the mapping blob exists at lines 364-367. -/
def load_from_redis (st : FaceVectorIndex) : Bool × FaceVectorIndex :=
  match st.redis with
  | none => (false, st)
  | some r =>
    match r.index_val with
    | none => (false, st)
    | some loaded =>
      match r.map_val with
      | none => (false, { st with vectors := loaded })
      | some m =>
        (true, { st with vectors := loaded, id_map := m.1, reverse_map := m.2 })

/-- Constructor `__init__` (lines 45-93): fresh empty index, then
`load_from_redis` when the Redis connection succeeded. -/
def init (dimension : ℕ) (redis : Option RedisStore) : FaceVectorIndex :=
  match redis with
  | none => ⟨dimension, [], [], [], none, 0⟩
  | some _ => (load_from_redis ⟨dimension, [], [], [], redis, 0⟩).2

/-- Body of the `try` block of `add_vector` (lines 112-142): duplicate-id
check, dimension check (raising), normalize, append, bind both map
directions, optional persistence. -/
noncomputable def add_body (st : FaceVectorIndex) (face_profile_id : ℤ)
    (embedding : Vec) (persist : Bool) :
    Except VIError (Bool × FaceVectorIndex) :=
  if dictContains face_profile_id st.reverse_map then Except.ok (false, st)
  else if embedding.length ≠ st.dimension then
    Except.error (VIError.invalidInput dimMismatchMsg)
  else
    Except.ok (true,
      (let faiss_id := st.vectors.length
       let st1 : FaceVectorIndex :=
         { st with
           vectors := st.vectors ++ [normalize embedding],
           id_map := dictInsert faiss_id face_profile_id st.id_map,
           reverse_map := dictInsert face_profile_id faiss_id st.reverse_map }
       if persist && st.redis.isSome then (save_to_redis st1).2 else st1))

/-- Public method `add_vector` (lines 95-146): the `except Exception`
handler at lines 144-146 turns any raised error into the return `False`. -/
noncomputable def add_vector (st : FaceVectorIndex) (face_profile_id : ℤ)
    (embedding : Vec) (persist : Bool) : Bool × FaceVectorIndex :=
  match add_body st face_profile_id embedding persist with
  | Except.ok r => r
  | Except.error _ => (false, st)

/-- FAISS `self.index.search(q, nq)` on an `IndexFlatL2`: the `nq`
nearest stored positions with their squared distances, ascending. (The
`-1` padding entries FAISS would emit cannot occur, since the caller
requests `nq = min(2k, ntotal) ≤ ntotal`.) -/
noncomputable def faissSearch (vectors : List Vec) (q : Vec) (nq : ℕ) :
    List (ℕ × ℝ) :=
  (((List.range vectors.length).map
      (fun i => (i, sqDist q (vectors.getD i [])))).mergeSort
    (fun a b => a.2 ≤ b.2)).take nq

/-- The exclusion test of `search_similar` line 191,
`if exclude_id and face_profile_id == exclude_id`: Python evaluates
`exclude_id` for truthiness, so `None` and `0` both disable the filter. -/
def excluded (exclude_id : Option ℤ) (face_profile_id : ℤ) : Bool :=
  match exclude_id with
  | none => false
  | some e => if e = 0 then false else face_profile_id == e

/-- The result-collection loop of `search_similar` (lines 183-214): skip
positions absent from `id_map` (the `idx == -1` guard is unreachable
here, see `faissSearch`), skip the excluded id, score, and break once `k`
results have been appended. `cnt` is `len(results)` so far. -/
noncomputable def searchLoop (id_map : List (ℕ × ℤ)) (exclude_id : Option ℤ)
    (k : ℕ) : List (ℕ × ℝ) → ℕ → List SearchResult
  | [], _ => []
  | (idx, dist) :: rest, cnt =>
    match dictGet idx id_map with
    | none => searchLoop id_map exclude_id k rest cnt
    | some pid =>
      if excluded exclude_id pid then searchLoop id_map exclude_id k rest cnt
      else
        if k ≤ cnt + 1 then [⟨pid, similarityOf dist, dist, confidenceOf (similarityOf dist)⟩]
        else ⟨pid, similarityOf dist, dist, confidenceOf (similarityOf dist)⟩ ::
          searchLoop id_map exclude_id k rest (cnt + 1)

/-- Body of the `try` block of `search_similar` (lines 165-217):
empty-index early return, dimension check (raising), normalize, FAISS
query for `min(2k, ntotal)` candidates, then the collection loop. -/
noncomputable def search_body (st : FaceVectorIndex) (embedding : Vec)
    (k : ℕ) (exclude_id : Option ℤ) : Except VIError (List SearchResult) :=
  if st.vectors.length = 0 then Except.ok []
  else if embedding.length ≠ st.dimension then
    Except.error (VIError.invalidInput dimMismatchMsg)
  else
    Except.ok (searchLoop st.id_map exclude_id k
      (faissSearch st.vectors (normalize embedding)
        (min (k * 2) st.vectors.length)) 0)

/-- Public method `search_similar` (lines 148-221): the handler at lines
219-221 turns any raised error into the return `[]`. -/
noncomputable def search_similar (st : FaceVectorIndex) (embedding : Vec)
    (k : ℕ) (exclude_id : Option ℤ) : List SearchResult :=
  match search_body st embedding k exclude_id with
  | Except.ok r => r
  | Except.error _ => []

/-- Public method `check_duplicate` (lines 272-303): search with `k = 1`,
duplicate iff the best match reaches the high-confidence threshold. -/
noncomputable def check_duplicate (st : FaceVectorIndex) (embedding : Vec)
    (exclude_id : Option ℤ) : Bool × Option SearchResult :=
  match search_similar st embedding 1 exclude_id with
  | [] => (false, none)
  | best :: _ => (decide (best.similarity ≥ HIGH_CONFIDENCE_THRESHOLD), some best)

/-- The reconstruction loop of `remove_vector` (lines 244-249):
`index.reconstruct` each retained position; a position outside the index
raises (modelled as `none`), which the handler turns into `False`. -/
def reconstructAll (vectors : List Vec) : List (ℕ × ℤ) → Option (List Vec)
  | [] => some []
  | p :: rest =>
    match vectors[p.1]?, reconstructAll vectors rest with
    | some v, some vs => some (v :: vs)
    | _, _ => none

/-- Public method `remove_vector` (lines 223-270): if the id is bound,
walk `id_map.items()` in insertion order keeping every entry with a
different profile id, reconstruct those vectors, rebuild the index from
them, renumber the kept ids densely from 0 in the same order, and invert
that map with a dict comprehension. -/
noncomputable def remove_vector (st : FaceVectorIndex) (face_profile_id : ℤ)
    (persist : Bool) : Bool × FaceVectorIndex :=
  if !(dictContains face_profile_id st.reverse_map) then (false, st)
  else
    match reconstructAll st.vectors
        (st.id_map.filter (fun p => !(p.2 == face_profile_id))) with
    | none => (false, st)
    | some vecs =>
      (true,
        (let kept := st.id_map.filter (fun p => !(p.2 == face_profile_id))
         let new_id_map := (List.range kept.length).zip (kept.map Prod.snd)
         let st1 : FaceVectorIndex :=
           { st with
             vectors := vecs,
             id_map := new_id_map,
             reverse_map := new_id_map.foldl (fun d p => dictInsert p.2 p.1 d) [] }
         if persist && st.redis.isSome then (save_to_redis st1).2 else st1))

/-- Public method `rebuild_from_database` (lines 393-426): reset index
and both maps, re-add every record through `add_vector` with
`persist=False` (a failed add only lowers `success_count`), then persist
once at the end when Redis is connected. -/
noncomputable def rebuild_from_database (st : FaceVectorIndex)
    (face_profiles : List (ℤ × Vec)) : Bool × FaceVectorIndex :=
  let st0 : FaceVectorIndex := { st with vectors := [], id_map := [], reverse_map := [] }
  let stN := face_profiles.foldl (fun s r => (add_vector s r.1 r.2 false).2) st0
  (true, if stN.redis.isSome then (save_to_redis stN).2 else stN)

/-! ### Structure of reachable mapping states

In every state the engine itself builds, `id_map` binds the internal
positions `0, 1, …, n-1` in order to a duplicate-free list of profile
ids, and `reverse_map` is the inverted list in the same order.  `enumOff
n pids` is that shape for `id_map`, starting at position `n`. -/

/-- Positions `n, n+1, …` paired in order with the elements of a list. -/
def enumOff (n : ℕ) : List ℤ → List (ℕ × ℤ)
  | [] => []
  | p :: rest => (n, p) :: enumOff (n + 1) rest

/-- The inverted form of `enumOff`: profile id to internal position. -/
def revOff (n : ℕ) (pids : List ℤ) : List (ℤ × ℕ) :=
  (enumOff n pids).map (fun p => (p.2, p.1))

/-- The mapping-state invariant the engine maintains: some duplicate-free
list of profile ids, bound in insertion order to positions `0..n-1`, with
`reverse_map` its exact inverse and the vector count matching. -/
def Inv (st : FaceVectorIndex) : Prop :=
  ∃ pids : List ℤ, pids.Nodup ∧
    st.vectors.length = pids.length ∧
    st.id_map = enumOff 0 pids ∧
    st.reverse_map = revOff 0 pids

/-- The Identity Map bijection stated by the specification: bound
external ids are pairwise distinct, there are exactly as many of them as
stored vectors, and external → internal → external is the identity. -/
def mapBijective (st : FaceVectorIndex) : Prop :=
  (st.reverse_map.map Prod.fst).Nodup ∧
  st.reverse_map.length = st.vectors.length ∧
  ∀ pid pos, dictGet pid st.reverse_map = some pos →
    dictGet pos st.id_map = some pid

/-- The profile ids `rebuild_from_database` actually re-inserts, in
order, starting from the already-inserted ids `acc`: a record is skipped
exactly when its id was already inserted in this pass or its embedding
has the wrong dimension (the two ways `add_vector` returns `False`). -/
def insertedIds (dim : ℕ) : List (ℤ × Vec) → List ℤ → List ℤ
  | [], acc => acc
  | r :: rest, acc =>
    if r.1 ∈ acc ∨ r.2.length ≠ dim then insertedIds dim rest acc
    else insertedIds dim rest (acc ++ [r.1])

/-- A one-vector index over dimension 1, holding the zero vector for
profile id 7; used to exercise the operations on concrete inputs. -/
def stOne : FaceVectorIndex := ⟨1, [[0]], [(0, 7)], [(7, 0)], none, 0⟩

/-- A two-vector index over dimension 1 (profile ids 5 and 7). -/
def stTwo : FaceVectorIndex :=
  ⟨1, [[0], [1]], [(0, 5), (1, 7)], [(5, 0), (7, 1)], none, 0⟩

/-- The search result `stOne` produces for the query `[0]`: its own
stored zero vector at distance `sqDist (normalize [0]) [0]`. -/
noncomputable def resZero : SearchResult :=
  ⟨7, similarityOf (sqDist (normalize [0]) [0]), sqDist (normalize [0]) [0],
    confidenceOf (similarityOf (sqDist (normalize [0]) [0]))⟩

theorem length_enumOff (n : ℕ) (l : List ℤ) : (enumOff n l).length = l.length := by
  induction l generalizing n with
  | nil => rfl
  | cons a t ih => simp [enumOff, ih]

theorem enumOff_append (n : ℕ) (l1 l2 : List ℤ) :
    enumOff n (l1 ++ l2) = enumOff n l1 ++ enumOff (n + l1.length) l2 := by
  induction l1 generalizing n with
  | nil => simp [enumOff]
  | cons a t ih =>
    simp only [List.cons_append, enumOff, List.length_cons]
    rw [List.append_eq, ih, show n + (t.length + 1) = n + 1 + t.length by omega]

theorem revOff_append (n : ℕ) (l1 l2 : List ℤ) :
    revOff n (l1 ++ l2) = revOff n l1 ++ revOff (n + l1.length) l2 := by
  simp [revOff, enumOff_append]

theorem map_fst_revOff (n : ℕ) (l : List ℤ) : (revOff n l).map Prod.fst = l := by
  induction l generalizing n with
  | nil => rfl
  | cons a t ih =>
    simp only [revOff, enumOff, List.map_cons]
    have h2 := ih (n + 1)
    simp only [revOff] at h2
    simp [h2]

theorem length_revOff (n : ℕ) (l : List ℤ) : (revOff n l).length = l.length := by
  simp [revOff, length_enumOff]

theorem mem_enumOff {p : ℕ × ℤ} {n : ℕ} {l : List ℤ} (h : p ∈ enumOff n l) :
    n ≤ p.1 ∧ p.1 < n + l.length := by
  induction l generalizing n with
  | nil => simp [enumOff] at h
  | cons a t ih =>
    simp only [enumOff, List.mem_cons] at h
    rcases h with h | h
    · subst h; simp
    · have := ih h; simp only [List.length_cons]; omega

theorem dictGet_enumOff (n j : ℕ) (l : List ℤ) :
    dictGet (n + j) (enumOff n l) = l[j]? := by
  induction l generalizing n j with
  | nil => simp [enumOff, dictGet]
  | cons a t ih =>
    cases j with
    | zero => simp [enumOff, dictGet, List.find?]
    | succ j =>
      have hne : (n == n + (j + 1)) = false := by simp
      have h2 := ih (n + 1) j
      rw [show n + 1 + j = n + (j + 1) by omega] at h2
      simp only [enumOff, dictGet, List.find?, hne]
      simp only [dictGet] at h2
      rw [h2]
      simp

theorem dictGet_enumOff_zero (j : ℕ) (l : List ℤ) :
    dictGet j (enumOff 0 l) = l[j]? := by
  simpa using dictGet_enumOff 0 j l

theorem dictContains_enumOff_ge {i n : ℕ} {l : List ℤ} (h : n + l.length ≤ i) :
    dictContains i (enumOff n l) = false := by
  induction l generalizing n with
  | nil => rfl
  | cons a t ih =>
    simp only [List.length_cons] at h
    have h1 : (n == i) = false := by simp; omega
    have h2 := @ih (n + 1) (by omega)
    simp [enumOff, dictContains, List.any_cons, h1] at *
    exact h2

theorem dictContains_revOff (pid : ℤ) (n : ℕ) (l : List ℤ) :
    dictContains pid (revOff n l) = decide (pid ∈ l) := by
  induction l generalizing n with
  | nil => rfl
  | cons a t ih =>
    have h2 := ih (n + 1)
    simp only [revOff, enumOff, List.map_cons, dictContains, List.any_cons] at *
    rw [h2]
    by_cases hc : a = pid
    · subst hc; simp
    · have hne : (a == pid) = false := by simpa using hc
      have hpa : ¬ pid = a := fun h => hc h.symm
      simp [hne, List.mem_cons, hpa]

theorem dictGet_revOff_some {pid : ℤ} {pos n : ℕ} {l : List ℤ}
    (h : dictGet pid (revOff n l) = some pos) :
    ∃ j, pos = n + j ∧ l[j]? = some pid := by
  induction l generalizing n with
  | nil => simp [revOff, enumOff, dictGet] at h
  | cons a t ih =>
    simp only [revOff, enumOff, List.map_cons, dictGet, List.find?] at h
    by_cases hc : a = pid
    · subst hc
      simp at h
      exact ⟨0, by omega, by simp⟩
    · have hne : (a == pid) = false := by simpa using hc
      rw [hne] at h
      obtain ⟨j, hj, hget⟩ := @ih (n + 1) h
      exact ⟨j + 1, by omega, by simpa using hget⟩

theorem dictContains_append {α β : Type} [BEq α] (k : α) (d e : List (α × β)) :
    dictContains k (d ++ e) = (dictContains k d || dictContains k e) := by
  simp [dictContains]

theorem dictInsert_new {α β : Type} [BEq α] {k : α} (v : β) {d : List (α × β)}
    (h : dictContains k d = false) : dictInsert k v d = d ++ [(k, v)] := by
  simp [dictInsert, h]

theorem map_add_range_zip (l : List ℤ) (k : ℕ) :
    (((List.range l.length).map (fun i => i + k)).zip l) = enumOff k l := by
  induction l generalizing k with
  | nil => rfl
  | cons a t ih =>
    rw [show (a :: t).length = t.length + 1 from rfl, List.range_succ_eq_map]
    simp only [List.map_cons, List.map_map, List.zip_cons_cons, enumOff]
    rw [show ((fun i => i + k) ∘ Nat.succ) = (fun i => i + (k + 1)) by
      funext i; simp; omega]
    simpa using ih (k + 1)

theorem range_zip_eq_enumOff (l : List ℤ) :
    (List.range l.length).zip l = enumOff 0 l := by
  have h := map_add_range_zip l 0
  simpa using h

theorem filter_enumOff_map_snd (n : ℕ) (l : List ℤ) (x : ℤ) :
    ((enumOff n l).filter (fun p => !(p.2 == x))).map Prod.snd =
      l.filter (fun y => !(y == x)) := by
  induction l generalizing n with
  | nil => rfl
  | cons a t ih =>
    by_cases hc : a = x
    · subst hc
      simp only [enumOff, List.filter_cons]
      simpa using ih (n + 1)
    · have hne : (a == x) = false := by simpa using hc
      simp only [enumOff, List.filter_cons, hne]
      simpa using ih (n + 1)

theorem foldl_dictInsert_swap (m : List (ℕ × ℤ)) :
    ∀ (d : List (ℤ × ℕ)), (m.map Prod.snd).Nodup →
    (∀ p ∈ m, dictContains p.2 d = false) →
    m.foldl (fun d p => dictInsert p.2 p.1 d) d = d ++ m.map (fun p => (p.2, p.1)) := by
  induction m with
  | nil => intro d _ _; simp
  | cons q rest ih =>
    intro d hnd hdis
    simp only [List.map_cons, List.nodup_cons] at hnd
    have hdis2 : ∀ p ∈ rest, dictContains p.2 (d ++ [(q.2, q.1)]) = false := by
      intro p hp
      rw [dictContains_append]
      have h1 : dictContains p.2 d = false := hdis p (List.mem_cons_of_mem _ hp)
      have h2 : (q.2 == p.2) = false := by
        have hne : q.2 ≠ p.2 := by
          intro he
          exact hnd.1 (he ▸ List.mem_map_of_mem Prod.snd hp)
        simpa using hne
      have h3 : dictContains p.2 [(q.2, q.1)] = false := by
        simp only [dictContains, List.any_cons, List.any_nil, h2, Bool.or_false]
      simp [h1, h3]
    simp only [List.foldl_cons]
    rw [dictInsert_new q.1 (hdis q (by simp))]
    rw [ih (d ++ [(q.2, q.1)]) hnd.2 hdis2]
    simp

theorem sqDist_nonneg (q v : Vec) : 0 ≤ sqDist q v := by
  induction q generalizing v with
  | nil => simp [sqDist]
  | cons a q ih =>
    cases v with
    | nil => simp [sqDist]
    | cons b v =>
      have h1 := ih v
      have h2 : 0 ≤ (a - b) * (a - b) := mul_self_nonneg _
      simp only [sqDist, List.zipWith_cons_cons, List.sum_cons] at *
      linarith

theorem l2norm_nonneg (v : Vec) : 0 ≤ l2norm v := Real.sqrt_nonneg _

theorem normalize_of_norm_eq_zero {v : Vec} (h : l2norm v = 0) :
    normalize v = v := by
  simp [normalize, h]

theorem normalize_of_norm_ne_zero {v : Vec} (h : l2norm v ≠ 0) :
    normalize v = v.map (fun x => x / l2norm v) := by
  have hpos : l2norm v > 0 := lt_of_le_of_ne (l2norm_nonneg v) (Ne.symm h)
  simp [normalize, hpos]

theorem dictGet_mem_values {α β : Type} [BEq α] {k : α} {v : β}
    {d : List (α × β)} (h : dictGet k d = some v) : v ∈ d.map Prod.snd := by
  simp only [dictGet, Option.map_eq_some'] at h
  obtain ⟨p, hp, hv⟩ := h
  subst hv
  exact List.mem_map_of_mem Prod.snd (List.mem_of_find?_eq_some hp)

theorem mem_faissSearch_nonneg {c : ℕ × ℝ} {vectors : List Vec} {q : Vec}
    {nq : ℕ} (h : c ∈ faissSearch vectors q nq) : 0 ≤ c.2 := by
  have h1 : c ∈ ((List.range vectors.length).map
      (fun i => (i, sqDist q (vectors.getD i [])))).mergeSort
      (fun a b => a.2 ≤ b.2) := List.mem_of_mem_take h
  rw [(List.mergeSort_perm _ _).mem_iff] at h1
  simp only [List.mem_map] at h1
  obtain ⟨i, _, hi⟩ := h1
  subst hi
  exact sqDist_nonneg _ _

theorem searchLoop_shape {m : List (ℕ × ℤ)} {excl : Option ℤ} {k : ℕ} :
    ∀ {cands : List (ℕ × ℝ)} {cnt : ℕ} {r : SearchResult},
    r ∈ searchLoop m excl k cands cnt →
    ∃ idx dist, (idx, dist) ∈ cands ∧ dictGet idx m = some r.face_profile_id ∧
      r.distance = dist ∧ r.similarity = similarityOf dist ∧
      r.confidence_level = confidenceOf (similarityOf dist) := by
  intro cands
  induction cands with
  | nil => intro cnt r h; simp [searchLoop] at h
  | cons c rest ih =>
    intro cnt r h
    obtain ⟨idx, dist⟩ := c
    rcases hm : dictGet idx m with _ | pid
    · simp only [searchLoop, hm] at h
      obtain ⟨i2, d2, hmem, hrest⟩ := ih h
      exact ⟨i2, d2, List.mem_cons_of_mem _ hmem, hrest⟩
    · simp only [searchLoop, hm] at h
      by_cases he : excluded excl pid
      · rw [if_pos he] at h
        obtain ⟨i2, d2, hmem, hrest⟩ := ih h
        exact ⟨i2, d2, List.mem_cons_of_mem _ hmem, hrest⟩
      · rw [if_neg he] at h
        by_cases hk : k ≤ cnt + 1
        · rw [if_pos hk] at h
          simp only [List.mem_singleton] at h
          subst h
          exact ⟨idx, dist, by simp, hm, rfl, rfl, rfl⟩
        · rw [if_neg hk] at h
          rcases List.mem_cons.mp h with h | h
          · subst h
            exact ⟨idx, dist, by simp, hm, rfl, rfl, rfl⟩
          · obtain ⟨i2, d2, hmem, hrest⟩ := ih h
            exact ⟨i2, d2, List.mem_cons_of_mem _ hmem, hrest⟩

theorem reconstructAll_eq_map {vectors : List Vec} :
    ∀ {entries : List (ℕ × ℤ)}, (∀ p ∈ entries, p.1 < vectors.length) →
    reconstructAll vectors entries =
      some (entries.map (fun p => vectors.getD p.1 [])) := by
  intro entries
  induction entries with
  | nil => intro _; rfl
  | cons p rest ih =>
    intro h
    have hp : p.1 < vectors.length := h p (by simp)
    have h2 := ih (fun q hq => h q (List.mem_cons_of_mem _ hq))
    rw [reconstructAll, h2, List.getElem?_eq_getElem hp]
    simp [List.getD_eq_getElem?_getD, List.getElem?_eq_getElem hp]

theorem save_to_redis_fields (s : FaceVectorIndex) :
    (save_to_redis s).2.vectors = s.vectors ∧
    (save_to_redis s).2.id_map = s.id_map ∧
    (save_to_redis s).2.reverse_map = s.reverse_map ∧
    (save_to_redis s).2.dimension = s.dimension ∧
    (save_to_redis s).2.save_count =
      s.save_count + (if s.redis.isSome then 1 else 0) := by
  rcases h : s.redis with _ | r <;> simp [save_to_redis, h]

theorem Inv_save {s : FaceVectorIndex} (h : Inv s) : Inv (save_to_redis s).2 := by
  obtain ⟨pids, hnd, hlen, hid, hrev⟩ := h
  obtain ⟨h1, h2, h3, _, _⟩ := save_to_redis_fields s
  exact ⟨pids, hnd, by rw [h1]; exact hlen, by rw [h2]; exact hid,
    by rw [h3]; exact hrev⟩

theorem map_snd_enumOff (n : ℕ) (l : List ℤ) : (enumOff n l).map Prod.snd = l := by
  induction l generalizing n with
  | nil => rfl
  | cons a t ih => simp [enumOff, ih]

theorem add_vector_dup {st : FaceVectorIndex} {pid : ℤ} {emb : Vec}
    {persist : Bool} (hc : dictContains pid st.reverse_map = true) :
    add_vector st pid emb persist = (false, st) := by
  rw [add_vector, add_body, if_pos hc]

theorem add_vector_dim {st : FaceVectorIndex} {pid : ℤ} {emb : Vec}
    {persist : Bool} (hc : dictContains pid st.reverse_map = false)
    (hdim : emb.length ≠ st.dimension) :
    add_body st pid emb persist =
      Except.error (VIError.invalidInput dimMismatchMsg) ∧
    add_vector st pid emb persist = (false, st) := by
  have h1 : add_body st pid emb persist =
      Except.error (VIError.invalidInput dimMismatchMsg) := by
    rw [add_body, if_neg (by simp [hc]), if_pos hdim]
  exact ⟨h1, by rw [add_vector, h1]⟩

theorem add_vector_success {st : FaceVectorIndex} {pid : ℤ} {emb : Vec}
    (persist : Bool) (hc : dictContains pid st.reverse_map = false)
    (hdim : emb.length = st.dimension) :
    add_vector st pid emb persist =
      (true,
        if persist && st.redis.isSome then
          (save_to_redis { st with
            vectors := st.vectors ++ [normalize emb],
            id_map := dictInsert st.vectors.length pid st.id_map,
            reverse_map := dictInsert pid st.vectors.length st.reverse_map }).2
        else { st with
            vectors := st.vectors ++ [normalize emb],
            id_map := dictInsert st.vectors.length pid st.id_map,
            reverse_map := dictInsert pid st.vectors.length st.reverse_map }) := by
  rw [add_vector, add_body, if_neg (by simp [hc]),
    if_neg (show ¬emb.length ≠ st.dimension from fun h => h hdim)]

theorem dictInsert_id_map_enum (pids : List ℤ) (pid : ℤ) :
    dictInsert pids.length pid (enumOff 0 pids) = enumOff 0 (pids ++ [pid]) := by
  rw [dictInsert_new _ (dictContains_enumOff_ge (by simp)), enumOff_append]
  simp [enumOff]

theorem dictInsert_rev_map_enum {pids : List ℤ} {pid : ℤ} (hmem : pid ∉ pids) :
    dictInsert pid pids.length (revOff 0 pids) = revOff 0 (pids ++ [pid]) := by
  have hc : dictContains pid (revOff 0 pids) = false := by
    rw [dictContains_revOff]; simpa using hmem
  rw [dictInsert_new _ hc, revOff_append]
  simp [revOff, enumOff]

theorem add_vector_state_success {st : FaceVectorIndex} {pid : ℤ} {emb : Vec}
    {pids : List ℤ} (hlen : st.vectors.length = pids.length)
    (hid : st.id_map = enumOff 0 pids) (hrev : st.reverse_map = revOff 0 pids)
    (hmem : pid ∉ pids) (hdim : emb.length = st.dimension) :
    add_vector st pid emb false =
      (true, { st with vectors := st.vectors ++ [normalize emb],
                       id_map := enumOff 0 (pids ++ [pid]),
                       reverse_map := revOff 0 (pids ++ [pid]) }) := by
  have hc : dictContains pid st.reverse_map = false := by
    rw [hrev, dictContains_revOff]; simpa using hmem
  rw [add_vector_success false hc hdim]
  simp only [Bool.false_and, if_false]
  rw [hid, hrev, hlen, dictInsert_id_map_enum, dictInsert_rev_map_enum hmem]
  simp

theorem nodup_append_singleton {pids : List ℤ} {pid : ℤ} (hnd : pids.Nodup)
    (hmem : pid ∉ pids) : (pids ++ [pid]).Nodup := by
  rw [List.nodup_append]
  refine ⟨hnd, List.nodup_singleton _, ?_⟩
  intro x hx hx2
  rw [List.mem_singleton] at hx2
  subst hx2
  exact hmem hx

theorem Inv_add {st : FaceVectorIndex} (pid : ℤ) (emb : Vec) (persist : Bool)
    (h : Inv st) : Inv (add_vector st pid emb persist).2 := by
  obtain ⟨pids, hnd, hlen, hid, hrev⟩ := h
  rcases hc : dictContains pid st.reverse_map with _ | _
  · by_cases hdim : emb.length = st.dimension
    · have hmem : pid ∉ pids := by
        rw [hrev, dictContains_revOff] at hc; simpa using hc
      rw [add_vector_success persist hc hdim]
      have hInv1 : Inv { st with
          vectors := st.vectors ++ [normalize emb],
          id_map := dictInsert st.vectors.length pid st.id_map,
          reverse_map := dictInsert pid st.vectors.length st.reverse_map } := by
        refine ⟨pids ++ [pid], nodup_append_singleton hnd hmem, ?_, ?_, ?_⟩
        · simp [hlen]
        · show dictInsert st.vectors.length pid st.id_map = _
          rw [hid, hlen, dictInsert_id_map_enum]
        · show dictInsert pid st.vectors.length st.reverse_map = _
          rw [hrev, hlen, dictInsert_rev_map_enum hmem]
      rcases hb : persist && st.redis.isSome with _ | _
      · simpa [hb] using hInv1
      · simpa [hb] using Inv_save hInv1
    · rw [(add_vector_dim hc hdim).2]
      exact ⟨pids, hnd, hlen, hid, hrev⟩
  · rw [add_vector_dup hc]
    exact ⟨pids, hnd, hlen, hid, hrev⟩

theorem remove_vector_unbound {st : FaceVectorIndex} {pid : ℤ} (persist : Bool)
    (hc : dictContains pid st.reverse_map = false) :
    remove_vector st pid persist = (false, st) := by
  rw [remove_vector, hc]
  rfl

theorem length_filter_ne {l : List ℤ} {a : ℤ} (hnd : l.Nodup) (ha : a ∈ l) :
    (l.filter (fun x => !(x == a))).length + 1 = l.length := by
  have h1 : l.filter (fun x => !(x == a)) = l.erase a := by
    rw [List.Nodup.erase_eq_filter hnd]
    rfl
  rw [h1, List.length_erase_of_mem ha]
  have := List.length_pos.mpr (List.ne_nil_of_mem ha)
  omega

theorem remove_vector_char {st : FaceVectorIndex} {pid : ℤ} {pids : List ℤ}
    (persist : Bool) (hnd : pids.Nodup) (hlen : st.vectors.length = pids.length)
    (hid : st.id_map = enumOff 0 pids) (hrev : st.reverse_map = revOff 0 pids)
    (hc : dictContains pid st.reverse_map = true) :
    (remove_vector st pid persist).1 = true ∧
    (remove_vector st pid persist).2.vectors =
      (st.id_map.filter (fun p => !(p.2 == pid))).map
        (fun p => st.vectors.getD p.1 []) ∧
    (remove_vector st pid persist).2.id_map =
      enumOff 0 (pids.filter (fun y => !(y == pid))) ∧
    (remove_vector st pid persist).2.reverse_map =
      revOff 0 (pids.filter (fun y => !(y == pid))) ∧
    (remove_vector st pid persist).2.vectors.length + 1 = st.vectors.length ∧
    Inv (remove_vector st pid persist).2 := by
  have hmem : pid ∈ pids := by
    rw [hrev, dictContains_revOff] at hc; simpa using hc
  have hrange : ∀ p ∈ st.id_map.filter (fun p => !(p.2 == pid)),
      p.1 < st.vectors.length := by
    intro p hp
    have hp2 : p ∈ st.id_map := List.mem_of_mem_filter hp
    rw [hid] at hp2
    have h3 := mem_enumOff hp2
    omega
  have hrec := reconstructAll_eq_map hrange
  have hnn : (!(dictContains pid st.reverse_map)) = false := by rw [hc]; rfl
  have hsnd : (st.id_map.filter (fun p => !(p.2 == pid))).map Prod.snd
      = pids.filter (fun y => !(y == pid)) := by
    rw [hid]; exact filter_enumOff_map_snd 0 pids pid
  have hklen : (st.id_map.filter (fun p => !(p.2 == pid))).length
      = (pids.filter (fun y => !(y == pid))).length := by
    rw [← hsnd, List.length_map]
  have hnew : (List.range
        (st.id_map.filter (fun p => !(p.2 == pid))).length).zip
        ((st.id_map.filter (fun p => !(p.2 == pid))).map Prod.snd)
      = enumOff 0 (pids.filter (fun y => !(y == pid))) := by
    rw [hsnd, hklen, range_zip_eq_enumOff]
  have hfold : (enumOff 0 (pids.filter (fun y => !(y == pid)))).foldl
        (fun d p => dictInsert p.2 p.1 d) []
      = revOff 0 (pids.filter (fun y => !(y == pid))) := by
    rw [foldl_dictInsert_swap _ []
      (by rw [map_snd_enumOff]; exact hnd.filter _) (fun p _ => rfl)]
    simp [revOff]
  have hform : remove_vector st pid persist =
      (true,
        if persist && st.redis.isSome then
          (save_to_redis { st with
            vectors := (st.id_map.filter (fun p => !(p.2 == pid))).map
              (fun p => st.vectors.getD p.1 []),
            id_map := enumOff 0 (pids.filter (fun y => !(y == pid))),
            reverse_map := revOff 0 (pids.filter (fun y => !(y == pid))) }).2
        else { st with
            vectors := (st.id_map.filter (fun p => !(p.2 == pid))).map
              (fun p => st.vectors.getD p.1 []),
            id_map := enumOff 0 (pids.filter (fun y => !(y == pid))),
            reverse_map := revOff 0 (pids.filter (fun y => !(y == pid))) }) := by
    simp only [remove_vector, hnn, Bool.false_eq_true, if_false, hrec, hnew, hfold]
  have hcnt : (pids.filter (fun y => !(y == pid))).length + 1 = pids.length :=
    length_filter_ne hnd hmem
  have hInv1 : Inv { st with
      vectors := (st.id_map.filter (fun p => !(p.2 == pid))).map
        (fun p => st.vectors.getD p.1 []),
      id_map := enumOff 0 (pids.filter (fun y => !(y == pid))),
      reverse_map := revOff 0 (pids.filter (fun y => !(y == pid))) } := by
    refine ⟨pids.filter (fun y => !(y == pid)), hnd.filter _, ?_, rfl, rfl⟩
    show ((st.id_map.filter (fun p => !(p.2 == pid))).map
      (fun p => st.vectors.getD p.1 [])).length = _
    rw [List.length_map, hklen]
  rcases hb : persist && st.redis.isSome with _ | _
  · rw [hb] at hform
    rw [if_neg (by simp)] at hform
    rw [hform]
    refine ⟨rfl, rfl, rfl, rfl, ?_, hInv1⟩
    show ((st.id_map.filter (fun p => !(p.2 == pid))).map
      (fun p => st.vectors.getD p.1 [])).length + 1 = st.vectors.length
    rw [List.length_map, hklen, hlen]
    exact hcnt
  · rw [hb] at hform
    rw [if_pos rfl] at hform
    rw [hform]
    obtain ⟨v1, v2, v3, _, _⟩ := save_to_redis_fields { st with
      vectors := (st.id_map.filter (fun p => !(p.2 == pid))).map
        (fun p => st.vectors.getD p.1 []),
      id_map := enumOff 0 (pids.filter (fun y => !(y == pid))),
      reverse_map := revOff 0 (pids.filter (fun y => !(y == pid))) }
    refine ⟨rfl, by rw [v1], by rw [v2], by rw [v3], ?_, Inv_save hInv1⟩
    show (save_to_redis _).2.vectors.length + 1 = st.vectors.length
    rw [v1]
    show ((st.id_map.filter (fun p => !(p.2 == pid))).map
      (fun p => st.vectors.getD p.1 [])).length + 1 = st.vectors.length
    rw [List.length_map, hklen, hlen]
    exact hcnt

theorem Inv_remove {st : FaceVectorIndex} (pid : ℤ) (persist : Bool)
    (h : Inv st) : Inv (remove_vector st pid persist).2 := by
  obtain ⟨pids, hnd, hlen, hid, hrev⟩ := h
  rcases hc : dictContains pid st.reverse_map with _ | _
  · rw [remove_vector_unbound persist hc]
    exact ⟨pids, hnd, hlen, hid, hrev⟩
  · exact (remove_vector_char persist hnd hlen hid hrev hc).2.2.2.2.2

theorem mem_search_similar {st : FaceVectorIndex} {emb : Vec} {k : ℕ}
    {excl : Option ℤ} {r : SearchResult} (h : r ∈ search_similar st emb k excl) :
    r ∈ searchLoop st.id_map excl k
      (faissSearch st.vectors (normalize emb) (min (k * 2) st.vectors.length)) 0 := by
  by_cases h0 : st.vectors.length = 0
  · rw [search_similar, search_body, if_pos h0] at h
    simp at h
  · by_cases hdim : emb.length ≠ st.dimension
    · rw [search_similar, search_body, if_neg h0, if_pos hdim] at h
      simp at h
    · rw [search_similar, search_body, if_neg h0, if_neg hdim] at h
      exact h

theorem search_result_from_id_map {st : FaceVectorIndex} {emb : Vec} {k : ℕ}
    {excl : Option ℤ} {r : SearchResult} (h : r ∈ search_similar st emb k excl) :
    r.face_profile_id ∈ st.id_map.map Prod.snd := by
  obtain ⟨idx, dist, _, hget, _⟩ := searchLoop_shape (mem_search_similar h)
  exact dictGet_mem_values hget

theorem rebuild_foldl_char (records : List (ℤ × Vec)) :
    ∀ (s : FaceVectorIndex) (pids : List ℤ), pids.Nodup →
    s.vectors.length = pids.length →
    s.id_map = enumOff 0 pids → s.reverse_map = revOff 0 pids →
    (records.foldl (fun t r => (add_vector t r.1 r.2 false).2) s).id_map =
        enumOff 0 (insertedIds s.dimension records pids) ∧
    (records.foldl (fun t r => (add_vector t r.1 r.2 false).2) s).reverse_map =
        revOff 0 (insertedIds s.dimension records pids) ∧
    (records.foldl (fun t r => (add_vector t r.1 r.2 false).2) s).vectors.length =
        (insertedIds s.dimension records pids).length ∧
    (insertedIds s.dimension records pids).Nodup ∧
    (records.foldl (fun t r => (add_vector t r.1 r.2 false).2) s).dimension =
        s.dimension ∧
    (records.foldl (fun t r => (add_vector t r.1 r.2 false).2) s).redis =
        s.redis ∧
    (records.foldl (fun t r => (add_vector t r.1 r.2 false).2) s).save_count =
        s.save_count := by
  induction records with
  | nil =>
    intro s pids hnd hlen hid hrev
    simp only [List.foldl_nil, insertedIds]
    refine ⟨hid, hrev, by rw [hlen], hnd, ?_, ?_, ?_⟩ <;> trivial
  | cons rec0 rest ih =>
    intro s pids hnd hlen hid hrev
    obtain ⟨pid, emb⟩ := rec0
    by_cases hmem : pid ∈ pids
    · have hc : dictContains pid s.reverse_map = true := by
        rw [hrev, dictContains_revOff]; simpa using hmem
      have hstep : (add_vector s pid emb false).2 = s := by
        rw [add_vector_dup hc]
      have hskip : insertedIds s.dimension ((pid, emb) :: rest) pids =
          insertedIds s.dimension rest pids := by
        rw [insertedIds, if_pos (Or.inl hmem)]
      simp only [List.foldl_cons, hstep, hskip]
      exact ih s pids hnd hlen hid hrev
    · have hc : dictContains pid s.reverse_map = false := by
        rw [hrev, dictContains_revOff]; simpa using hmem
      by_cases hdim : emb.length = s.dimension
      · have hstep : (add_vector s pid emb false).2 =
            { s with vectors := s.vectors ++ [normalize emb],
                     id_map := enumOff 0 (pids ++ [pid]),
                     reverse_map := revOff 0 (pids ++ [pid]) } := by
          rw [add_vector_state_success hlen hid hrev hmem hdim]
        have hins : insertedIds s.dimension ((pid, emb) :: rest) pids =
            insertedIds s.dimension rest (pids ++ [pid]) := by
          rw [insertedIds,
            if_neg (by simp [hmem, hdim])]
        simp only [List.foldl_cons, hstep, hins]
        exact ih _ (pids ++ [pid]) (nodup_append_singleton hnd hmem)
          (by simp [hlen]) rfl rfl
      · have hstep : (add_vector s pid emb false).2 = s := by
          rw [(add_vector_dim hc hdim).2]
        have hskip : insertedIds s.dimension ((pid, emb) :: rest) pids =
            insertedIds s.dimension rest pids := by
          rw [insertedIds, if_pos (Or.inr hdim)]
        simp only [List.foldl_cons, hstep, hskip]
        exact ih s pids hnd hlen hid hrev

theorem Inv_rebuild (st : FaceVectorIndex) (records : List (ℤ × Vec)) :
    Inv (rebuild_from_database st records).2 := by
  have h0 := rebuild_foldl_char records
    { st with vectors := [], id_map := [], reverse_map := [] } []
    List.nodup_nil rfl rfl rfl
  obtain ⟨h1, h2, h3, h4, _, _, _⟩ := h0
  have hInvN : Inv ((records.foldl (fun t r => (add_vector t r.1 r.2 false).2)
      { st with vectors := [], id_map := [], reverse_map := [] })) :=
    ⟨insertedIds st.dimension records [], h4, h3, h1, h2⟩
  rw [rebuild_from_database]
  rcases hb : (records.foldl (fun t r => (add_vector t r.1 r.2 false).2)
      { st with vectors := [], id_map := [], reverse_map := [] }).redis.isSome with _ | _
  · simpa [hb] using hInvN
  · simpa [hb] using Inv_save hInvN

theorem search_vector_dim {st : FaceVectorIndex} {emb : Vec} {k : ℕ}
    {excl : Option ℤ} (h0 : st.vectors.length ≠ 0)
    (hdim : emb.length ≠ st.dimension) :
    search_body st emb k excl =
      Except.error (VIError.invalidInput dimMismatchMsg) ∧
    search_similar st emb k excl = [] := by
  have h1 : search_body st emb k excl =
      Except.error (VIError.invalidInput dimMismatchMsg) := by
    rw [search_body, if_neg h0, if_pos hdim]
  exact ⟨h1, by rw [search_similar, h1]⟩

theorem excluded_zero (pid : ℤ) : excluded (some 0) pid = false := by
  simp [excluded]

theorem searchLoop_exclude_zero (m : List (ℕ × ℤ)) (k : ℕ) :
    ∀ (cands : List (ℕ × ℝ)) (cnt : ℕ),
    searchLoop m (some 0) k cands cnt = searchLoop m none k cands cnt := by
  intro cands
  induction cands with
  | nil => intro cnt; rfl
  | cons c rest ih =>
    intro cnt
    obtain ⟨idx, dist⟩ := c
    rcases hm : dictGet idx m with _ | pid
    · simp only [searchLoop, hm]
      exact ih cnt
    · simp only [searchLoop, hm, excluded_zero,
        show excluded none pid = false from rfl, Bool.false_eq_true, if_false]
      rw [ih (cnt + 1)]

theorem search_body_exclude_zero (st : FaceVectorIndex) (emb : Vec) (k : ℕ) :
    search_body st emb k (some 0) = search_body st emb k none := by
  rw [search_body, search_body, searchLoop_exclude_zero]

theorem confidenceOf_eq_high {s : ℝ} : confidenceOf s = "high" ↔ 0.85 ≤ s := by
  rw [confidenceOf, HIGH_CONFIDENCE_THRESHOLD, MEDIUM_CONFIDENCE_THRESHOLD]
  by_cases h1 : s ≥ 0.85
  · rw [if_pos h1]
    simpa using h1
  · rw [if_neg h1]
    by_cases h2 : s ≥ 0.70
    · rw [if_pos h2]
      constructor
      · intro he; exact absurd he (by decide)
      · intro hle; exact absurd hle h1
    · rw [if_neg h2]
      constructor
      · intro he; exact absurd he (by decide)
      · intro hle; exact absurd hle h1

theorem confidenceOf_eq_medium {s : ℝ} :
    confidenceOf s = "medium" ↔ 0.70 ≤ s ∧ s < 0.85 := by
  rw [confidenceOf, HIGH_CONFIDENCE_THRESHOLD, MEDIUM_CONFIDENCE_THRESHOLD]
  by_cases h1 : s ≥ 0.85
  · rw [if_pos h1]
    constructor
    · intro he; exact absurd he (by decide)
    · intro hle; exact absurd h1 (not_le.mpr hle.2)
  · rw [if_neg h1]
    by_cases h2 : s ≥ 0.70
    · rw [if_pos h2]
      exact ⟨fun _ => ⟨h2, not_le.mp h1⟩, fun _ => rfl⟩
    · rw [if_neg h2]
      constructor
      · intro he; exact absurd he (by decide)
      · intro hle; exact absurd hle.1 h2

theorem confidenceOf_eq_low {s : ℝ} : confidenceOf s = "low" ↔ s < 0.70 := by
  rw [confidenceOf, HIGH_CONFIDENCE_THRESHOLD, MEDIUM_CONFIDENCE_THRESHOLD]
  by_cases h1 : s ≥ 0.85
  · rw [if_pos h1]
    constructor
    · intro he; exact absurd he (by decide)
    · intro hlt
      exfalso
      have h3 : (0.70 : ℝ) ≤ 0.85 := by norm_num
      have h4 : (0.85 : ℝ) ≤ s := h1
      linarith
  · rw [if_neg h1]
    by_cases h2 : s ≥ 0.70
    · rw [if_pos h2]
      constructor
      · intro he; exact absurd he (by decide)
      · intro hlt; exact absurd h2 (not_le.mpr hlt)
    · rw [if_neg h2]
      exact ⟨fun _ => not_le.mp h2, fun _ => rfl⟩

theorem Inv_mapBijective {st : FaceVectorIndex} (h : Inv st) :
    mapBijective st := by
  obtain ⟨pids, hnd, hlen, hid, hrev⟩ := h
  refine ⟨?_, ?_, ?_⟩
  · rw [hrev, map_fst_revOff]; exact hnd
  · rw [hrev, length_revOff, hlen]
  · intro pid pos hget
    rw [hrev] at hget
    obtain ⟨j, hj, hgj⟩ := dictGet_revOff_some hget
    rw [hid]
    have hj2 : pos = j := by omega
    rw [hj2, dictGet_enumOff_zero]
    exact hgj

theorem Inv_load_of_save {st : FaceVectorIndex} (d : ℕ) (h : Inv st) :
    ∀ r, (save_to_redis st).2.redis = some r → Inv (init d (some r)) := by
  obtain ⟨pids, hnd, hlen, hid, hrev⟩ := h
  intro r hr
  rcases hred : st.redis with _ | r0
  · simp only [save_to_redis, hred] at hr
    cases hr
  · simp only [save_to_redis, hred] at hr
    injection hr with hr2
    subst hr2
    exact ⟨pids, hnd, hlen, hid, hrev⟩

theorem faiss_eval_stOne :
    faissSearch stOne.vectors (normalize [0]) (min (1 * 2) stOne.vectors.length)
      = [(0, sqDist (normalize [0]) [0])] := by
  rw [faissSearch]
  rw [show (List.range stOne.vectors.length).map
      (fun i => (i, sqDist (normalize [0]) (stOne.vectors.getD i [])))
      = [(0, sqDist (normalize [0]) [0])] from rfl]
  rw [List.mergeSort_singleton]
  rfl

theorem search_eval_stOne : search_similar stOne [0] 1 none = [resZero] := by
  rw [search_similar, search_body,
    if_neg (show ¬(stOne.vectors.length = 0) by decide),
    if_neg (show ¬(([0] : Vec).length ≠ stOne.dimension) by decide),
    faiss_eval_stOne]
  rfl

/-! ### Claim theorems -/

/-- C1 (amended): for an embedding of the wrong length, insert with an
unbound id and search on a nonempty index detect the mismatch before any
computation or state change and raise `InvalidInput` internally — but the
enclosing catch-all converts the error into the ordinary failure returns
(`false` with the state untouched for insert, `[]` for search) instead of
propagating it to the caller. -/
theorem C1_dim_mismatch_coerced (st : FaceVectorIndex) (pid : ℤ) (emb : Vec)
    (persist : Bool) (k : ℕ) (excl : Option ℤ)
    (hdim : emb.length ≠ st.dimension) :
    (dictContains pid st.reverse_map = false →
      add_body st pid emb persist =
        Except.error (VIError.invalidInput dimMismatchMsg) ∧
      add_vector st pid emb persist = (false, st)) ∧
    (st.vectors.length ≠ 0 →
      search_body st emb k excl =
        Except.error (VIError.invalidInput dimMismatchMsg) ∧
      search_similar st emb k excl = []) :=
  ⟨fun hc => add_vector_dim hc hdim, fun h0 => search_vector_dim h0 hdim⟩

/-- C1 counterexample: at a concrete one-vector index of dimension 1 and
the length-2 embedding `[1, 1]`, the body of each operation raises
`InvalidInput`, yet the public insert returns the ordinary value
`(false, st)` and the public search returns the ordinary value `[]` — the
error is coerced into an ordinary return, not raised to the caller as the
claim states. -/
theorem C1_counterexample :
    add_body stOne 1 [1, 1] false =
      Except.error (VIError.invalidInput dimMismatchMsg) ∧
    add_vector stOne 1 [1, 1] false = (false, stOne) ∧
    search_body stOne [1, 1] 2 none =
      Except.error (VIError.invalidInput dimMismatchMsg) ∧
    search_similar stOne [1, 1] 2 none = [] := by
  have h1 := @add_vector_dim stOne 1 [1, 1] false (by decide) (by decide)
  have h2 := @search_vector_dim stOne [1, 1] 2 none (by decide) (by decide)
  exact ⟨h1.1, h1.2, h2.1, h2.2⟩

/-- C1 witness: the amended theorem applied at the concrete index
`stOne` and embedding `[1, 1]`. -/
theorem C1_dim_mismatch_coerced_witness :
    ([1, 1] : Vec).length ≠ stOne.dimension ∧
    add_vector stOne 1 [1, 1] false = (false, stOne) ∧
    search_similar stOne [1, 1] 2 none = [] := by
  have h := C1_dim_mismatch_coerced stOne 1 [1, 1] false 2 none (by decide)
  exact ⟨by decide, (h.1 (by decide)).2, (h.2 (by decide)).2⟩

/-- C2 (code bug exhibited): with the structure key present (one stored
vector) and the mapping key absent, `load_from_redis` reports failure as
specified, but because the source assigns the deserialized index before
checking the mapping key (line 361 versus 364-367), the constructed
engine keeps the loaded vector while both identity-map directions are
empty — exactly the partial state the claim says never occurs. -/
theorem C2_corrupt_load_partial_state :
    (load_from_redis ⟨1, [], [], [], some ⟨some [[0]], none⟩, 0⟩).1 = false ∧
    (init 1 (some ⟨some [[0]], none⟩)).vectors = [[0]] ∧
    (init 1 (some ⟨some [[0]], none⟩)).id_map = [] ∧
    (init 1 (some ⟨some [[0]], none⟩)).reverse_map = [] :=
  ⟨rfl, rfl, rfl, rfl⟩

/-- C3 counterexample: the loader performs no consistency validation, so
constructing the engine over a snapshot whose two keys are both present
but inconsistent (a one-vector structure with empty maps) succeeds and
leaves a non-bijective identity map: 0 bound ids against 1 stored
vector. -/
theorem C3_counterexample :
    ¬ mapBijective (init 1 (some ⟨some [[0]], some ([], [])⟩)) := by
  intro h
  exact absurd h.2.1 (by decide)

/-- C3 (amended): the identity-map bijection (distinct bound ids, as many
as stored vectors, external → internal → external the identity) holds
after construction without a snapshot, is preserved by insert, remove and
rebuildAll from any invariant state (search and checkDuplicate never
modify state), and survives a save/load round trip; but a load does not
validate the snapshot, so construction from an inconsistent store can
break it. -/
theorem C3_bijection (st : FaceVectorIndex) (pid : ℤ) (emb : Vec)
    (persist : Bool) (records : List (ℤ × Vec)) (d : ℕ) (h : Inv st) :
    Inv (init d none) ∧
    Inv (add_vector st pid emb persist).2 ∧
    Inv (remove_vector st pid persist).2 ∧
    Inv (rebuild_from_database st records).2 ∧
    (∀ r, (save_to_redis st).2.redis = some r → Inv (init d (some r))) ∧
    mapBijective st :=
  ⟨⟨[], List.nodup_nil, rfl, rfl, rfl⟩,
    Inv_add pid emb persist h,
    Inv_remove pid persist h,
    Inv_rebuild st records,
    Inv_load_of_save d h,
    Inv_mapBijective h⟩

/-- C3 witness: the amended theorem applied at the concrete two-vector
invariant state `stTwo`. -/
theorem C3_bijection_witness :
    Inv stTwo ∧ mapBijective stTwo ∧ Inv (add_vector stTwo 9 [1] false).2 := by
  have hInv : Inv stTwo := ⟨[5, 7], by decide, rfl, by decide, by decide⟩
  exact ⟨hInv, (C3_bijection stTwo 9 [1] false [] 1 hInv).2.2.2.2.2,
    (C3_bijection stTwo 9 [1] false [] 1 hInv).2.1⟩

/-- C4: checkDuplicate returns exactly what search with k = 1 and the
same exclusion yields — the head result as `best_match`, `is_duplicate`
true precisely when that match exists with similarity at least the high
threshold (0.85), and `(false, none)` when no match exists. -/
theorem C4_check_duplicate_spec (st : FaceVectorIndex) (emb : Vec)
    (excl : Option ℤ) :
    check_duplicate st emb excl =
      (match (search_similar st emb 1 excl).head? with
        | none => (false, none)
        | some b => (decide (b.similarity ≥ HIGH_CONFIDENCE_THRESHOLD), some b)) ∧
    ((check_duplicate st emb excl).1 = true ↔
      ∃ b, (search_similar st emb 1 excl).head? = some b ∧
        HIGH_CONFIDENCE_THRESHOLD ≤ b.similarity) ∧
    (check_duplicate st emb excl).2 = (search_similar st emb 1 excl).head? := by
  rcases hs : search_similar st emb 1 excl with _ | ⟨best, rest⟩
  · have hcd : check_duplicate st emb excl = (false, none) := by
      rw [check_duplicate, hs]
    rw [hcd]
    refine ⟨rfl, ?_, rfl⟩
    simp
  · have hcd : check_duplicate st emb excl =
        (decide (best.similarity ≥ HIGH_CONFIDENCE_THRESHOLD), some best) := by
      rw [check_duplicate, hs]
    rw [hcd]
    refine ⟨rfl, ?_, rfl⟩
    simp [ge_iff_le]

/-- C5: every result a search reports carries
`similarity = max(0, 1 - distance/4)`, which lies in `[0, 1]`; its tier
is `high` exactly when similarity ≥ 0.85, `medium` exactly when
0.70 ≤ similarity < 0.85, and `low` exactly when similarity < 0.70; in
particular similarity 0.85 is `high`, 0.84999 is `medium`, 0.70 is
`medium` and 0.69999 is `low`. -/
theorem C5_similarity_confidence (st : FaceVectorIndex) (emb : Vec) (k : ℕ)
    (excl : Option ℤ) (r : SearchResult)
    (hr : r ∈ search_similar st emb k excl) :
    r.similarity = max 0 (1 - r.distance / 4) ∧
    0 ≤ r.similarity ∧ r.similarity ≤ 1 ∧
    (r.confidence_level = "high" ↔ 0.85 ≤ r.similarity) ∧
    (r.confidence_level = "medium" ↔
      0.70 ≤ r.similarity ∧ r.similarity < 0.85) ∧
    (r.confidence_level = "low" ↔ r.similarity < 0.70) ∧
    confidenceOf 0.85 = "high" ∧ confidenceOf 0.84999 = "medium" ∧
    confidenceOf 0.70 = "medium" ∧ confidenceOf 0.69999 = "low" := by
  obtain ⟨idx, dist, hmem, hget, hdist, hsim, hconf⟩ :=
    searchLoop_shape (mem_search_similar hr)
  have hd0 : (0 : ℝ) ≤ dist := mem_faissSearch_nonneg hmem
  have hsim2 : r.similarity = max 0 (1 - r.distance / 4) := by
    rw [hsim, hdist, similarityOf]
  have h0 : 0 ≤ r.similarity := by rw [hsim2]; exact le_max_left _ _
  have h1 : r.similarity ≤ 1 := by
    rw [hsim2, hdist]
    apply max_le (by norm_num)
    have h2 : (0 : ℝ) ≤ dist / 4 := div_nonneg hd0 (by norm_num)
    linarith
  have hcl : r.confidence_level = confidenceOf r.similarity := by
    rw [hconf, hsim]
  refine ⟨hsim2, h0, h1, ?_, ?_, ?_, ?_, ?_, ?_, ?_⟩
  · rw [hcl]; exact confidenceOf_eq_high
  · rw [hcl]; exact confidenceOf_eq_medium
  · rw [hcl]; exact confidenceOf_eq_low
  · exact confidenceOf_eq_high.mpr (by norm_num)
  · exact confidenceOf_eq_medium.mpr ⟨by norm_num, by norm_num⟩
  · exact confidenceOf_eq_medium.mpr ⟨by norm_num, by norm_num⟩
  · exact confidenceOf_eq_low.mpr (by norm_num)

/-- C5 witness: the theorem applied to the concrete result `stOne`
reports for the query `[0]`. -/
theorem C5_similarity_confidence_witness :
    resZero ∈ search_similar stOne [0] 1 none ∧
    resZero.similarity = max 0 (1 - resZero.distance / 4) ∧
    0 ≤ resZero.similarity ∧ resZero.similarity ≤ 1 ∧
    (resZero.confidence_level = "high" ↔ 0.85 ≤ resZero.similarity) := by
  have hmem : resZero ∈ search_similar stOne [0] 1 none := by
    rw [search_eval_stOne]
    exact List.mem_singleton.mpr rfl
  have h := C5_similarity_confidence stOne [0] 1 none resZero hmem
  exact ⟨hmem, h.1, h.2.1, h.2.2.1, h.2.2.2.1⟩

/-- C6: removing a bound id rebuilds the index from the reconstructed
surviving vectors in their original relative order, renumbers the
identity map densely from 0 in that order, decreases the count by exactly
one, and no search on the resulting state ever returns the removed id;
removing an unbound id returns `false` and changes nothing. -/
theorem C6_remove_spec (st : FaceVectorIndex) (pid : ℤ) (persist : Bool)
    (h : Inv st) :
    (dictContains pid st.reverse_map = false →
      remove_vector st pid persist = (false, st)) ∧
    (dictContains pid st.reverse_map = true →
      (remove_vector st pid persist).1 = true ∧
      (remove_vector st pid persist).2.vectors =
        (st.id_map.filter (fun p => !(p.2 == pid))).map
          (fun p => st.vectors.getD p.1 []) ∧
      (remove_vector st pid persist).2.id_map =
        (List.range ((st.id_map.filter (fun p => !(p.2 == pid))).length)).zip
          ((st.id_map.filter (fun p => !(p.2 == pid))).map Prod.snd) ∧
      (remove_vector st pid persist).2.vectors.length + 1 =
        st.vectors.length ∧
      (∀ emb k excl r,
        r ∈ search_similar (remove_vector st pid persist).2 emb k excl →
        r.face_profile_id ≠ pid)) := by
  obtain ⟨pids, hnd, hlen, hid, hrev⟩ := h
  refine ⟨fun hc => remove_vector_unbound persist hc, fun hc => ?_⟩
  obtain ⟨h1, h2, h3, h4, h5, hInv2⟩ :=
    remove_vector_char persist hnd hlen hid hrev hc
  have hsnd : (st.id_map.filter (fun p => !(p.2 == pid))).map Prod.snd
      = pids.filter (fun y => !(y == pid)) := by
    rw [hid]; exact filter_enumOff_map_snd 0 pids pid
  have hklen : (st.id_map.filter (fun p => !(p.2 == pid))).length
      = (pids.filter (fun y => !(y == pid))).length := by
    rw [← hsnd, List.length_map]
  refine ⟨h1, h2, ?_, h5, ?_⟩
  · rw [h3, hsnd, hklen, range_zip_eq_enumOff]
  · intro emb k excl r hr he
    have hval := search_result_from_id_map hr
    rw [h3, map_snd_enumOff] at hval
    rw [he] at hval
    have h6 := List.of_mem_filter hval
    simp at h6

/-- C6 witness: the theorem applied at the concrete two-vector state
`stTwo`, removing the bound id 5. -/
theorem C6_remove_spec_witness :
    Inv stTwo ∧ dictContains (5 : ℤ) stTwo.reverse_map = true ∧
    (remove_vector stTwo 5 false).1 = true ∧
    (remove_vector stTwo 5 false).2.vectors.length + 1 =
      stTwo.vectors.length := by
  have hInv : Inv stTwo := ⟨[5, 7], by decide, rfl, by decide, by decide⟩
  have h := (C6_remove_spec stTwo 5 false hInv).2 (by decide)
  exact ⟨hInv, by decide, h.1, h.2.2.2.1⟩

/-- C7 counterexample: over dimension 1, rebuilding from the single
record `(1, [])` — an empty, wrong-dimension embedding whose id collides
with nothing — still skips the record (the operation reports success but
inserts nothing), whereas the claim says exactly the id-colliding records
are skipped, which would require this record to be inserted. -/
theorem C7_counterexample :
    (rebuild_from_database (init 1 none) [((1 : ℤ), ([] : Vec))]).1 = true ∧
    (rebuild_from_database (init 1 none) [((1 : ℤ), ([] : Vec))]).2.id_map
      = [] ∧
    (rebuild_from_database (init 1 none) [((1 : ℤ), ([] : Vec))]).2.vectors
      = [] :=
  ⟨rfl, rfl, rfl⟩

/-- C7 (amended): rebuildAll resets both structures, then inserts the
records in order, skipping exactly those whose id collides with one
already inserted in this pass or whose embedding has the wrong dimension
(the two failure modes of the underlying insert); it never fails the
whole operation, and performs exactly one persistence snapshot at the
end when a store is connected — never one per insert. -/
theorem C7_rebuild_spec (st : FaceVectorIndex) (records : List (ℤ × Vec)) :
    (rebuild_from_database st records).1 = true ∧
    (rebuild_from_database st records).2.id_map =
      enumOff 0 (insertedIds st.dimension records []) ∧
    (rebuild_from_database st records).2.reverse_map =
      revOff 0 (insertedIds st.dimension records []) ∧
    (rebuild_from_database st records).2.vectors.length =
      (insertedIds st.dimension records []).length ∧
    (rebuild_from_database st records).2.save_count =
      st.save_count + (if st.redis.isSome then 1 else 0) := by
  obtain ⟨h2, h3, h4, h5, h6, h7, h8⟩ := rebuild_foldl_char records
    { st with vectors := [], id_map := [], reverse_map := [] } []
    List.nodup_nil rfl rfl rfl
  have hform : rebuild_from_database st records =
      (true, if (records.foldl (fun t r => (add_vector t r.1 r.2 false).2)
          { st with vectors := [], id_map := [], reverse_map := [] }).redis.isSome
        then (save_to_redis (records.foldl
          (fun t r => (add_vector t r.1 r.2 false).2)
          { st with vectors := [], id_map := [], reverse_map := [] })).2
        else records.foldl (fun t r => (add_vector t r.1 r.2 false).2)
          { st with vectors := [], id_map := [], reverse_map := [] }) := rfl
  have h7b : (records.foldl (fun t r => (add_vector t r.1 r.2 false).2)
      { st with vectors := [], id_map := [], reverse_map := [] }).redis
      = st.redis := h7
  rw [hform]
  rcases hb : (records.foldl (fun t r => (add_vector t r.1 r.2 false).2)
      { st with vectors := [], id_map := [], reverse_map := [] }).redis.isSome
      with _ | _
  · rw [hb, if_neg (by simp)]
    have hred : st.redis.isSome = false := by rw [← h7b]; exact hb
    rw [hred]
    refine ⟨rfl, h2, h3, h4, ?_⟩
    simpa using h8
  · rw [hb, if_pos rfl]
    have hred : st.redis.isSome = true := by rw [← h7b]; exact hb
    rw [hred]
    obtain ⟨v1, v2, v3, v4, v5⟩ := save_to_redis_fields
      (records.foldl (fun t r => (add_vector t r.1 r.2 false).2)
        { st with vectors := [], id_map := [], reverse_map := [] })
    refine ⟨rfl, by rw [v2]; exact h2, by rw [v3]; exact h3,
      by rw [v1]; exact h4, ?_⟩
    rw [v5, hb]
    simp only [if_true, if_pos rfl]
    rw [h8]

/-- C8: an exclusion id of 0 is falsy in Python
(`if exclude_id and ...`), so search and checkDuplicate with exclusion 0
coincide exactly with the calls without an exclusion id — an enrolled
embedding with external id 0 is still returned and still counts as a
duplicate. -/
theorem C8_exclude_zero_is_no_exclusion (st : FaceVectorIndex) (emb : Vec)
    (k : ℕ) :
    search_similar st emb k (some 0) = search_similar st emb k none ∧
    check_duplicate st emb (some 0) = check_duplicate st emb none := by
  have hs : ∀ k2, search_similar st emb k2 (some 0) =
      search_similar st emb k2 none := by
    intro k2
    rw [search_similar, search_similar, search_body_exclude_zero]
  exact ⟨hs k, by rw [check_duplicate, check_duplicate, hs 1]⟩

/-- C9: inserting an already-bound external id returns `false` without
raising, and the engine state — vector count, stored vectors, both map
directions, persistence — is entirely unchanged. -/
theorem C9_insert_duplicate_rejected (st : FaceVectorIndex) (pid : ℤ)
    (emb : Vec) (persist : Bool)
    (h : dictContains pid st.reverse_map = true) :
    add_vector st pid emb persist = (false, st) :=
  add_vector_dup h

/-- C9 witness: the theorem applied at `stOne`, whose id 7 is bound. -/
theorem C9_insert_duplicate_rejected_witness :
    dictContains (7 : ℤ) stOne.reverse_map = true ∧
    add_vector stOne 7 [1] false = (false, stOne) :=
  ⟨by decide, C9_insert_duplicate_rejected stOne 7 [1] false (by decide)⟩

/-- C10: a correctly-dimensioned embedding is normalized by division by
its Euclidean norm — passed through unchanged when that norm is exactly
zero — and it is this normalized vector that insert appends and that
search hands to the FAISS query. -/
theorem C10_normalization (st : FaceVectorIndex) (pid : ℤ) (emb : Vec)
    (persist : Bool) (k : ℕ) (excl : Option ℤ)
    (hlen : emb.length = st.dimension) :
    (l2norm emb = 0 → normalize emb = emb) ∧
    (l2norm emb ≠ 0 →
      normalize emb = emb.map (fun x => x / l2norm emb)) ∧
    (dictContains pid st.reverse_map = false →
      (add_vector st pid emb persist).2.vectors =
        st.vectors ++ [normalize emb]) ∧
    (st.vectors.length ≠ 0 →
      search_similar st emb k excl = searchLoop st.id_map excl k
        (faissSearch st.vectors (normalize emb)
          (min (k * 2) st.vectors.length)) 0) := by
  refine ⟨normalize_of_norm_eq_zero, normalize_of_norm_ne_zero, ?_, ?_⟩
  · intro hc
    rcases hb : persist && st.redis.isSome with _ | _
    · rw [add_vector_success persist hc hlen, hb, if_neg (by simp)]
    · rw [add_vector_success persist hc hlen, hb, if_pos rfl]
      exact (save_to_redis_fields _).1
  · intro h0
    rw [search_similar, search_body, if_neg h0,
      if_neg (show ¬(emb.length ≠ st.dimension) from fun hne => hne hlen)]

/-- C10 witness: the theorem applied at a fresh dimension-1 engine and
the zero embedding (norm exactly zero, passed through unchanged). -/
theorem C10_normalization_witness :
    l2norm [(0 : ℝ)] = 0 ∧ normalize [(0 : ℝ)] = [0] ∧
    (add_vector (init 1 none) 1 [0] false).2.vectors =
      [] ++ [normalize [0]] := by
  have hz : l2norm [(0 : ℝ)] = 0 := by
    simp [l2norm]
  have h := C10_normalization (init 1 none) 1 [0] false 1 none rfl
  exact ⟨hz, h.1 hz, h.2.2.1 rfl⟩

end VectorIndex
